import Mathlib

/-!
Shallow embedding of the PROSAC consensus engine
(`pcl::ProgressiveSampleConsensus<PointT>::computeModel`, prosac.hpp) and the
relevant part of the segmentation orchestrator
(`pcl::SACSegmentation::setDistanceThreshold`, sac_segmentation.h).

Modelling conventions:
* C++ `float`/`double` arithmetic on the run-state quantities (`T_n`,
  `T_prime_n`, `n_star`, `epsilon_n_star`, thresholds) is modelled as exact
  rational arithmetic (`ℚ`).  The loop counters (`iterations_`, `n`, `m`, `N`,
  `k_n_star`, inlier counts) are integer valued throughout the C++ run and are
  modelled as `ℕ` (with `ℤ` for the signed `max_iterations_` comparison).
* The two transcendental computations the code delegates to the math library —
  `ceil(log(0.05)/log(bottom_log))` and the boost binomial quantile
  `ceil(quantile(complement(binomial_distribution<float>(n, 0.1), 0.05)))` —
  are oracles, fields of a `Numerics` parameter; every theorem is proved for
  an arbitrary oracle unless stated otherwise.
* The pluggable SAC model (`sac_model_`) is a `Model` record whose
  `getSamples` / `computeModelCoefficients` / `selectWithinDistance` members
  are arbitrary functions of the data the C++ calls pass them (the current
  contents of `indices_` included, since the C++ methods read the member
  vector that `computeModel` swaps around them).
* Each call the engine makes into the model is recorded in an event trace so
  that "no sampling occurred" and "selection ran against these indices" are
  stated observably.
-/

namespace Prosac

/-- The largest finite IEEE-754 double, `DBL_MAX = (2 - 2⁻⁵²)·2¹⁰²³ =
(2⁵³ − 1)·2⁹⁷¹`, as an exact rational (written as its 309-digit integer value
so that concrete runs evaluate without huge-exponent powers).  `computeModel`
compares `threshold_` against this constant. -/
def DBL_MAX : ℚ := 179769313486231570814527423731704356798070567525844996598917476803157260780028538760589558632766878171540458953514382464234321326889464182768467546703537516986049910576551282076245490090389328944075868508455133942304583236903222948165808559332123348274797826204144723168738177180919299881250404026184124858368

/-- Modelled from the spec: the `SampleConsensus` base class (sac.h, which is
not under src/) leaves the distance threshold "unset" by default; the guard in
`computeModel` (prosac.hpp line 400) identifies the unset state with the value
`DBL_MAX`, so that is the value an unset threshold carries. -/
def unsetThreshold : ℚ := DBL_MAX

/-- The two float computations `computeModel` delegates to the math library,
kept abstract: `ceilLogRatio b` stands for `(int)ceil(log(0.05)/log(b))` on
the non-boundary branch, and `quantileCeil n` stands for
`ceil(quantile(complement(binomial_distribution<float>(n, 0.1), 0.05)))`. -/
structure Numerics where
  ceilLogRatio : ℚ → ℕ
  quantileCeil : ℕ → ℕ

/-- The sample-consensus model contract used by `computeModel`:
`indices` is the initial content of `sac_model_->indices_`, `m` its
`getSampleSize ()`; the three methods receive the data the C++ calls pass
them, plus the current contents of the (swapped) `indices_` vector they read
internally. -/
structure Model (α : Type) where
  indices : List Int
  m : ℕ
  getSamples : ℕ → List Int → List Int
  computeModelCoefficients : List Int → Option α
  selectWithinDistance : α → ℚ → List Int → List Int

/-- One observable call the engine makes into the model during a run. -/
inductive Event
  | draw (iter : ℕ) (pool : List Int) (sel : List Int)
  | estimate (sel : List Int) (ok : Bool)
  | select (idx : List Int) (inl : List Int)
deriving DecidableEq, Repr

/-- The mutable state of one `computeModel` run: the local variables of the
loop plus the members (`iterations_`, `inliers_`, `model_`,
`model_coefficients_`, and the model's `indices_` vector) it writes. -/
structure PState (α : Type) where
  iterations : ℕ
  n : ℕ
  T_n : ℚ
  T_prime_n : ℚ
  I_N_best : ℕ
  n_star : ℚ
  epsilon_n_star : ℚ
  k_n_star : ℕ
  mindices : List Int
  index_pool : List Int
  inliers_ : List Int
  model_ : List Int
  coeffs_ : Option α
  trace : List Event
deriving Repr

/-- Initial `T_n`: `float T_n = T_N; for i < m: T_n *= (m-i)/(N-i)`. -/
def T_n_init (m N : ℕ) : ℚ :=
  (List.range m).foldl (fun acc i => acc * ((m - i : ℕ) : ℚ) / ((N - i : ℕ) : ℚ)) 200000

/-- The state at loop entry: PROSAC constants initialized, `iterations_ = 0`,
`index_pool` filled with the first `n = m` indices, best fields empty. -/
def initState {α : Type} (M : Model α) : PState α :=
  let N := M.indices.length
  { iterations := 0
    n := M.m
    T_n := T_n_init M.m N
    T_prime_n := 1
    I_N_best := 0
    n_star := (N : ℚ)
    epsilon_n_star := 0
    k_n_star := 200000
    mindices := M.indices
    index_pool := M.indices.take M.m
    inliers_ := []
    model_ := []
    coeffs_ := none
    trace := [] }

/-- Accumulator of the backward scan in step (f): the running
`possible_n_star_best / I_possible_n_star_best / epsilon_possible_n_star_best`
triple, plus the list of candidates for which the scan actually evaluated
`epsilon_possible_n_star` (those that survived the sample-size guard). -/
structure ScanAcc where
  possibleBest : ℕ
  IBest : ℕ
  epsBest : ℚ
  considered : List ℕ
deriving DecidableEq, Repr

/-- The backward scan over the sorted inliers (prosac.hpp lines 511–539):
`revInliers` is the sorted inlier list in reverse (the reverse iteration),
`Ip` the running `I_possible_n_star`.  The guard `possible_n_star <= m`
breaks, as does a failed Equation-9 feasibility check on an otherwise
improving candidate. -/
def scan (num : Numerics) (m : ℕ) (epsStar : ℚ) :
    List Int → ℕ → ScanAcc → ScanAcc
  | [], _, acc => acc
  | v :: rest, Ip, acc =>
    let possible := (v + 1).toNat
    if possible ≤ m then acc
    else
      let acc1 : ScanAcc := { acc with considered := acc.considered ++ [possible] }
      let epsP : ℚ := (Ip : ℚ) / (possible : ℚ)
      if epsP > epsStar ∧ epsP > acc1.epsBest then
        if Ip < m + num.quantileCeil possible then acc1
        else scan num m epsStar rest (Ip - 1)
          { acc1 with possibleBest := possible, IBest := Ip, epsBest := epsP }
      else scan num m epsStar rest (Ip - 1) acc1

/-- The `k_n_star` recomputation (prosac.hpp lines 548–556): branch on
`bottom_log = 1 − ε^m` being exactly 0 or exactly 1, otherwise the float
log-ratio, then clip below at `2·m`. -/
def knStarUpdate (num : Numerics) (m : ℕ) (eps : ℚ) : ℕ :=
  let bottom_log : ℚ := 1 - eps ^ m
  let k : ℕ := if bottom_log = 0 then 1 else if bottom_log = 1 then 200000
               else num.ceilLogRatio bottom_log
  max k (2 * m)

/-- Step 1, the pool-growth step (prosac.hpp lines 446–457): on the trigger
`iterations_ == T_prime_n && n < n_star`, increment `n`; if `n` has reached
`N`, report a break (the push and the `T_n`/`T_prime_n` updates do not run);
otherwise push `indices_[n-1]` onto the pool and update `T_n`, `T_prime_n`. -/
def growth {α : Type} (N m : ℕ) (st : PState α) : Bool × PState α :=
  if (st.iterations : ℚ) = st.T_prime_n ∧ (st.n : ℚ) < st.n_star then
    let n' := st.n + 1
    if N ≤ n' then (true, { st with n := n' })
    else
      let T_old := st.T_n
      let T_new := T_old * ((n' : ℚ) + 1) / ((n' : ℚ) + 1 - (m : ℚ))
      (false, { st with
        n := n'
        index_pool := st.index_pool ++ [st.mindices.getD (n' - 1) 0]
        T_n := T_new
        T_prime_n := st.T_prime_n + ((⌈T_new - T_old⌉ : ℤ) : ℚ) })
  else (false, st)

/-- `sac_model_->indices_->swap (index_pool)`. -/
def swapIdx {α : Type} (st : PState α) : PState α :=
  { st with mindices := st.index_pool, index_pool := st.mindices }

/-- Step 2, the per-trial selection (prosac.hpp lines 461–467), run on the
post-swap state (`mindices` currently holds the pool): draw via `getSamples`,
then, when `T_prime_n < iterations_`, replace the last drawn sample with the
newest pool element `indices_[n-1]`. -/
def trialSelection {α : Type} (M : Model α) (st : PState α) : List Int :=
  let sel := M.getSamples st.iterations st.mindices
  if st.T_prime_n < (st.iterations : ℚ) then
    sel.dropLast ++ [st.mindices.getD (st.n - 1) 0]
  else sel

/-- Result of one loop-body execution: continue to the next `while` test, or
break out of the loop. -/
inductive StepRes (α : Type)
  | cont (st : PState α)
  | brk (st : PState α)

/-- The state a step result carries. -/
def StepRes.state {α : Type} : StepRes α → PState α
  | .cont st => st
  | .brk st => st

/-- Step (f) body on an improving trial (prosac.hpp lines 492–557): record the
new best, sort a local copy of the inliers, run the backward scan, and if the
scan improved `epsilon_n_star`, store it and recompute `k_n_star`. -/
def updateBest {α : Type} (num : Numerics) (m N : ℕ) (st : PState α)
    (sel : List Int) (c : α) (inl : List Int) : PState α :=
  let IN := inl.length
  let sorted := inl.insertionSort (· ≤ ·)
  let sc := scan num m st.epsilon_n_star sorted.reverse IN
    { possibleBest := N, IBest := IN, epsBest := (IN : ℚ) / (N : ℚ), considered := [] }
  let stb := { st with I_N_best := IN, inliers_ := inl, model_ := sel, coeffs_ := some c }
  if stb.epsilon_n_star < sc.epsBest then
    { stb with epsilon_n_star := sc.epsBest, k_n_star := knStarUpdate num m sc.epsBest }
  else stb

/-- The tail of the loop body after the selection has been drawn and the
indices restored (prosac.hpp lines 472–568): empty selection breaks; a failed
coefficient estimate advances `iterations_` and continues (skipping the
max-iterations check); otherwise select inliers, possibly update the best,
advance `iterations_`, and break when it exceeds `max_iterations_`. -/
def afterSelection {α : Type} (M : Model α) (num : Numerics) (thr : ℚ)
    (maxIt : ℤ) (N : ℕ) (st : PState α) (sel : List Int) : StepRes α :=
  if sel = [] then .brk st
  else
    match M.computeModelCoefficients sel with
    | none => .cont { st with iterations := st.iterations + 1,
                              trace := .estimate sel false :: st.trace }
    | some c =>
      let st4 := { st with trace := .estimate sel true :: st.trace }
      let inl := M.selectWithinDistance c thr st4.mindices
      let st5 := { st4 with trace := .select st4.mindices inl :: st4.trace }
      let st6 := if st5.I_N_best < inl.length then updateBest num M.m N st5 sel c inl else st5
      let st7 := { st6 with iterations := st6.iterations + 1 }
      if maxIt < (st7.iterations : ℤ) then .brk st7 else .cont st7

/-- One execution of the `while` body (prosac.hpp lines 441–568). -/
def loopBody {α : Type} (M : Model α) (num : Numerics) (thr : ℚ) (maxIt : ℤ)
    (N : ℕ) (st : PState α) : StepRes α :=
  let g := growth N M.m st
  if g.1 then .brk g.2
  else
    let st2 := swapIdx g.2
    let sel := trialSelection M st2
    let st3 := { swapIdx st2 with trace := .draw st2.iterations st2.mindices sel :: st2.trace }
    afterSelection M num thr maxIt N st3 sel

/-- The `while ((unsigned)iterations_ < k_n_star)` loop, fuel-indexed: every
claim quantifies over the fuel, and any fuel at least `k_n_star` large runs
the loop to its real exit. -/
def run {α : Type} (M : Model α) (num : Numerics) (thr : ℚ) (maxIt : ℤ)
    (N : ℕ) : ℕ → PState α → PState α
  | 0, st => st
  | fuel + 1, st =>
    if st.iterations < st.k_n_star then
      match loopBody M num thr maxIt N st with
      | .brk st' => st'
      | .cont st' => run M num thr maxIt N fuel st'
    else st

/-- `computeModel` (prosac.hpp lines 397–583): the `DBL_MAX` threshold guard,
then the loop from the initial state, then the final `model_.empty ()` check
(clearing `inliers_` and returning false on an empty best). -/
def computeModel {α : Type} (M : Model α) (num : Numerics) (thr : ℚ)
    (maxIt : ℤ) (fuel : ℕ) : Bool × PState α :=
  if thr = DBL_MAX then (false, initState M)
  else
    let stF := run M num thr maxIt M.indices.length fuel (initState M)
    if stF.model_ = [] then (false, { stF with inliers_ := [] })
    else (true, stF)

/-- Number of `getSamples` draws recorded in a trace. -/
def draws (l : List Event) : ℕ :=
  l.countP (fun e => match e with | .draw _ _ _ => true | _ => false)

/-- Number of coefficient-estimation calls recorded in a trace. -/
def estimates (l : List Event) : ℕ :=
  l.countP (fun e => match e with | .estimate _ _ => true | _ => false)

/-- Number of `selectWithinDistance` calls recorded in a trace. -/
def selects (l : List Event) : ℕ :=
  l.countP (fun e => match e with | .select _ _ => true | _ => false)

/-- The orchestrator configuration fields relevant here
(sac_segmentation.h lines 80–86 and 119–127). -/
structure SACSegmentationCfg where
  model_type : Int := -1
  method_type : Int := 0
  threshold : ℚ := unsetThreshold
  max_iterations : ℤ := 50
  probability : ℚ := 99 / 100

/-- `SACSegmentation::setDistanceThreshold` (sac_segmentation.h line 123):
raw assignment, no validation. -/
def setDistanceThreshold (c : SACSegmentationCfg) (t : ℚ) : SACSegmentationCfg :=
  { c with threshold := t }

/-- The backward scan as the spec words it ("stops at the first candidate
below the minimum sample size `m`"): identical to `scan` except that the
stop guard is `possible_n_star < m` instead of the code's
`possible_n_star <= m`.  Used only to compare against `scan`. -/
def scanSpecWord (num : Numerics) (m : ℕ) (epsStar : ℚ) :
    List Int → ℕ → ScanAcc → ScanAcc
  | [], _, acc => acc
  | v :: rest, Ip, acc =>
    let possible := (v + 1).toNat
    if possible < m then acc
    else
      let acc1 : ScanAcc := { acc with considered := acc.considered ++ [possible] }
      let epsP : ℚ := (Ip : ℚ) / (possible : ℚ)
      if epsP > epsStar ∧ epsP > acc1.epsBest then
        if Ip < m + num.quantileCeil possible then acc1
        else scanSpecWord num m epsStar rest (Ip - 1)
          { acc1 with possibleBest := possible, IBest := Ip, epsBest := epsP }
      else scanSpecWord num m epsStar rest (Ip - 1) acc1

/-- The candidate-pool invariant of the run: `m ≤ n ≤ N`, with `n_star` still
holding its (never reassigned) initial value `N`. -/
def PoolInv {α : Type} (m N : ℕ) (st : PState α) : Prop :=
  m ≤ st.n ∧ st.n ≤ N ∧ st.n_star = (N : ℚ)

/-- A trace event is compatible with inlier selection against `idx0`: every
`select` event must have been issued with exactly the index list `idx0`. -/
def selRespects (idx0 : List Int) : Event → Prop := fun e =>
  match e with
  | .select i _ => i = idx0
  | _ => True

/-- A concrete numerics oracle for the closed test runs (its values are only
read on branches where any fixed value serves). -/
def num1 : Numerics := { ceilLogRatio := fun _ => 59, quantileCeil := fun _ => 1 }

/-- Concrete model whose sample selection always comes back empty. -/
def M0 : Model ℕ :=
  { indices := [0, 1, 2, 3], m := 2
    getSamples := fun _ _ => []
    computeModelCoefficients := fun _ => some 0
    selectWithinDistance := fun _ _ _ => [] }

/-- Concrete model whose first trial draws a degenerate (1-point) sample that
fails coefficient estimation, and whose later trials succeed. -/
def Mf : Model ℕ :=
  { indices := [0, 1, 2, 3], m := 2
    getSamples := fun it pool => if it = 0 then pool.take 1 else pool.take 2
    computeModelCoefficients := fun sel => if sel.length ≤ 1 then none else some 0
    selectWithinDistance := fun _ _ _ => [0, 1, 2] }

/-- Concrete model whose every trial succeeds with three inliers. -/
def Mg : Model ℕ :=
  { indices := [0, 1, 2, 3], m := 2
    getSamples := fun _ pool => pool.take 2
    computeModelCoefficients := fun _ => some 0
    selectWithinDistance := fun _ _ _ => [0, 1, 2] }

/-! ### Helper lemmas -/

theorem swapIdx_swapIdx {α : Type} (st : PState α) : swapIdx (swapIdx st) = st := rfl

theorem growth_fields {α : Type} (N m : ℕ) (st : PState α) :
    (growth N m st).2.mindices = st.mindices ∧
    (growth N m st).2.iterations = st.iterations ∧
    (growth N m st).2.n_star = st.n_star ∧
    (growth N m st).2.I_N_best = st.I_N_best ∧
    (growth N m st).2.model_ = st.model_ ∧
    (growth N m st).2.inliers_ = st.inliers_ ∧
    (growth N m st).2.coeffs_ = st.coeffs_ ∧
    (growth N m st).2.epsilon_n_star = st.epsilon_n_star ∧
    (growth N m st).2.k_n_star = st.k_n_star ∧
    (growth N m st).2.trace = st.trace ∧
    ((growth N m st).2.n = st.n ∨ (growth N m st).2.n = st.n + 1) := by
  simp only [growth]
  split_ifs <;> simp

theorem growth_n_le {α : Type} (N m : ℕ) (st : PState α)
    (hstar : st.n_star = (N : ℚ)) (hn : st.n ≤ N) :
    (growth N m st).2.n ≤ N ∧
    ((growth N m st).1 = true →
      (growth N m st).2.n = N ∧ (growth N m st).2.index_pool = st.index_pool) := by
  simp only [growth]
  split_ifs with h1 h2
  · have hlt : st.n < N := by
      have := h1.2
      rw [hstar] at this
      exact_mod_cast this
    refine ⟨by simpa using hlt, fun _ => ⟨by simp; omega, rfl⟩⟩
  · have hlt : st.n < N := by
      have := h1.2
      rw [hstar] at this
      exact_mod_cast this
    exact ⟨by simpa using hlt, fun h => by simp at h⟩
  · exact ⟨hn, fun h => by simp at h⟩

theorem knStarUpdate_ge (num : Numerics) (m : ℕ) (eps : ℚ) :
    2 * m ≤ knStarUpdate num m eps := by
  unfold knStarUpdate
  exact Nat.le_max_right _ _

theorem updateBest_fields {α : Type} (num : Numerics) (m N : ℕ) (st : PState α)
    (sel : List Int) (c : α) (inl : List Int) :
    (updateBest num m N st sel c inl).mindices = st.mindices ∧
    (updateBest num m N st sel c inl).iterations = st.iterations ∧
    (updateBest num m N st sel c inl).n = st.n ∧
    (updateBest num m N st sel c inl).n_star = st.n_star ∧
    (updateBest num m N st sel c inl).index_pool = st.index_pool ∧
    (updateBest num m N st sel c inl).trace = st.trace ∧
    (updateBest num m N st sel c inl).I_N_best = inl.length ∧
    (updateBest num m N st sel c inl).model_ = sel ∧
    (updateBest num m N st sel c inl).inliers_ = inl ∧
    (updateBest num m N st sel c inl).coeffs_ = some c ∧
    ((updateBest num m N st sel c inl).epsilon_n_star ≠ st.epsilon_n_star →
      (updateBest num m N st sel c inl).k_n_star =
        knStarUpdate num m (updateBest num m N st sel c inl).epsilon_n_star) := by
  simp only [updateBest]
  split_ifs <;> simp

theorem afterSelection_fields {α : Type} (M : Model α) (num : Numerics) (thr : ℚ)
    (maxIt : ℤ) (N : ℕ) (st : PState α) (sel : List Int) :
    (afterSelection M num thr maxIt N st sel).state.mindices = st.mindices ∧
    (afterSelection M num thr maxIt N st sel).state.n = st.n ∧
    (afterSelection M num thr maxIt N st sel).state.n_star = st.n_star ∧
    (afterSelection M num thr maxIt N st sel).state.index_pool = st.index_pool ∧
    st.I_N_best ≤ (afterSelection M num thr maxIt N st sel).state.I_N_best ∧
    (((afterSelection M num thr maxIt N st sel).state.model_ ≠ st.model_ ∨
      (afterSelection M num thr maxIt N st sel).state.inliers_ ≠ st.inliers_ ∨
      (afterSelection M num thr maxIt N st sel).state.coeffs_ ≠ st.coeffs_) →
        st.I_N_best < (afterSelection M num thr maxIt N st sel).state.I_N_best) ∧
    ((afterSelection M num thr maxIt N st sel).state.epsilon_n_star ≠ st.epsilon_n_star →
      (afterSelection M num thr maxIt N st sel).state.k_n_star =
        knStarUpdate num M.m (afterSelection M num thr maxIt N st sel).state.epsilon_n_star) ∧
    (∀ e ∈ (afterSelection M num thr maxIt N st sel).state.trace,
      e ∈ st.trace ∨ selRespects st.mindices e) := by
  by_cases hsel : sel = []
  · have h : (afterSelection M num thr maxIt N st sel).state = st := by
      simp [afterSelection, hsel, StepRes.state]
    rw [h]
    exact ⟨rfl, rfl, rfl, rfl, le_refl _, by simp, by simp, fun e he => Or.inl he⟩
  · simp only [afterSelection, if_neg hsel]
    cases hc : M.computeModelCoefficients sel with
    | none =>
      dsimp only [StepRes.state]
      refine ⟨rfl, rfl, rfl, rfl, le_refl _, by simp, by simp, ?_⟩
      intro e he
      rcases List.mem_cons.mp he with h | h
      · exact Or.inr (by rw [h]; trivial)
      · exact Or.inl h
    | some c =>
      dsimp only
      simp only [apply_ite StepRes.state]
      dsimp only [StepRes.state]
      simp only [ite_self]
      split_ifs with hI
      · refine ⟨?_, ?_, ?_, ?_, ?_, ?_, ?_, ?_⟩
        · rw [(updateBest_fields num M.m N _ sel c _).1]
        · rw [(updateBest_fields num M.m N _ sel c _).2.2.1]
        · rw [(updateBest_fields num M.m N _ sel c _).2.2.2.1]
        · rw [(updateBest_fields num M.m N _ sel c _).2.2.2.2.1]
        · rw [(updateBest_fields num M.m N _ sel c _).2.2.2.2.2.2.1]
          exact le_of_lt hI
        · intro _
          rw [(updateBest_fields num M.m N _ sel c _).2.2.2.2.2.2.1]
          exact hI
        · exact (updateBest_fields num M.m N _ sel c _).2.2.2.2.2.2.2.2.2.2
        · intro e he
          rw [(updateBest_fields num M.m N _ sel c _).2.2.2.2.2.1] at he
          rcases List.mem_cons.mp he with h | h
          · exact Or.inr (by rw [h]; exact rfl)
          · rcases List.mem_cons.mp h with h2 | h2
            · exact Or.inr (by rw [h2]; trivial)
            · exact Or.inl h2
      · refine ⟨rfl, rfl, rfl, rfl, le_refl _, by simp, by simp, ?_⟩
        intro e he
        rcases List.mem_cons.mp he with h | h
        · exact Or.inr (by rw [h]; exact rfl)
        · rcases List.mem_cons.mp h with h2 | h2
          · exact Or.inr (by rw [h2]; trivial)
          · exact Or.inl h2

theorem loopBody_fields {α : Type} (M : Model α) (num : Numerics) (thr : ℚ)
    (maxIt : ℤ) (N : ℕ) (st : PState α) :
    (loopBody M num thr maxIt N st).state.mindices = st.mindices ∧
    (loopBody M num thr maxIt N st).state.n_star = st.n_star ∧
    ((loopBody M num thr maxIt N st).state.n = st.n ∨
      (loopBody M num thr maxIt N st).state.n = st.n + 1) ∧
    st.I_N_best ≤ (loopBody M num thr maxIt N st).state.I_N_best ∧
    (((loopBody M num thr maxIt N st).state.model_ ≠ st.model_ ∨
      (loopBody M num thr maxIt N st).state.inliers_ ≠ st.inliers_ ∨
      (loopBody M num thr maxIt N st).state.coeffs_ ≠ st.coeffs_) →
        st.I_N_best < (loopBody M num thr maxIt N st).state.I_N_best) ∧
    ((loopBody M num thr maxIt N st).state.epsilon_n_star ≠ st.epsilon_n_star →
      (loopBody M num thr maxIt N st).state.k_n_star =
        knStarUpdate num M.m (loopBody M num thr maxIt N st).state.epsilon_n_star) ∧
    (∀ e ∈ (loopBody M num thr maxIt N st).state.trace,
      e ∈ st.trace ∨ selRespects st.mindices e) ∧
    (st.n_star = (N : ℚ) → st.n ≤ N → (loopBody M num thr maxIt N st).state.n ≤ N) := by
  obtain ⟨gm, gi, gns, gI, gmod, ginl, gco, geps, gk, gtr, gn⟩ := growth_fields N M.m st
  cases hg : (growth N M.m st).1 with
  | true =>
    have hb : loopBody M num thr maxIt N st = .brk (growth N M.m st).2 := by
      simp only [loopBody]
      rw [hg]
      simp
    rw [hb]
    dsimp only [StepRes.state]
    refine ⟨gm, gns, gn, le_of_eq gI.symm, ?_, ?_, ?_, ?_⟩
    · intro h
      rcases h with h | h | h
      · exact absurd gmod h
      · exact absurd ginl h
      · exact absurd gco h
    · intro h
      exact absurd geps h
    · intro e he
      rw [gtr] at he
      exact Or.inl he
    · intro hstar hn
      exact (growth_n_le N M.m st hstar hn).1
  | false =>
    have hb : loopBody M num thr maxIt N st =
        afterSelection M num thr maxIt N
          { (growth N M.m st).2 with
            trace := Event.draw (growth N M.m st).2.iterations (growth N M.m st).2.index_pool
                (trialSelection M (swapIdx (growth N M.m st).2)) :: (growth N M.m st).2.trace }
          (trialSelection M (swapIdx (growth N M.m st).2)) := by
      simp only [loopBody]
      rw [hg]
      simp only [Bool.false_eq_true, if_false]
      rfl
    rw [hb]
    obtain ⟨am, an, ans, aip, aI, astrict, aek, atr⟩ :=
      afterSelection_fields M num thr maxIt N
        { (growth N M.m st).2 with
          trace := Event.draw (growth N M.m st).2.iterations (growth N M.m st).2.index_pool
              (trialSelection M (swapIdx (growth N M.m st).2)) :: (growth N M.m st).2.trace }
        (trialSelection M (swapIdx (growth N M.m st).2))
    refine ⟨am.trans gm, ans.trans gns, ?_, ?_, ?_, ?_, ?_, ?_⟩
    · rcases gn with h | h
      · exact Or.inl (an.trans h)
      · exact Or.inr (an.trans h)
    · exact le_trans (le_of_eq gI.symm) aI
    · intro h
      have h' := astrict (by
        rcases h with h | h | h
        · exact Or.inl (gmod.symm ▸ h)
        · exact Or.inr (Or.inl (ginl.symm ▸ h))
        · exact Or.inr (Or.inr (gco.symm ▸ h)))
      exact lt_of_le_of_lt (le_of_eq gI.symm) h'
    · intro h
      exact aek (geps.symm ▸ h)
    · intro e he
      rcases atr e he with h | h
      · rcases List.mem_cons.mp h with h2 | h2
        · exact Or.inr (by rw [h2]; trivial)
        · rw [gtr] at h2
          exact Or.inl h2
      · exact Or.inr (gm ▸ h)
    · intro hstar hn
      exact le_of_eq_of_le an (growth_n_le N M.m st hstar hn).1

theorem run_fields {α : Type} (M : Model α) (num : Numerics) (thr : ℚ) (maxIt : ℤ)
    (N : ℕ) : ∀ (fuel : ℕ) (st : PState α),
    (run M num thr maxIt N fuel st).mindices = st.mindices ∧
    (run M num thr maxIt N fuel st).n_star = st.n_star ∧
    st.I_N_best ≤ (run M num thr maxIt N fuel st).I_N_best ∧
    st.n ≤ (run M num thr maxIt N fuel st).n ∧
    (st.n_star = (N : ℚ) → st.n ≤ N → (run M num thr maxIt N fuel st).n ≤ N) ∧
    (M.m ≤ st.n → M.m ≤ (run M num thr maxIt N fuel st).n) ∧
    (∀ e ∈ (run M num thr maxIt N fuel st).trace, e ∈ st.trace ∨ selRespects st.mindices e) := by
  intro fuel
  induction fuel with
  | zero =>
    intro st
    exact ⟨rfl, rfl, le_refl _, le_refl _, fun _ hn => hn, fun h => h, fun e he => Or.inl he⟩
  | succ fuel ih =>
    intro st
    simp only [run]
    split_ifs with hit
    · cases hbody : loopBody M num thr maxIt N st with
      | brk st1 =>
        have hf := loopBody_fields M num thr maxIt N st
        rw [hbody] at hf
        dsimp only [StepRes.state] at hf
        obtain ⟨f1, f2, f3, f4, f5, f6, f7, f8⟩ := hf
        have hstep : st.n ≤ st1.n := by
          rcases f3 with h | h
          · exact le_of_eq h.symm
          · rw [h]; exact Nat.le_succ _
        exact ⟨f1, f2, f4, hstep, fun hstar hn => f8 hstar hn,
          fun hm => le_trans hm hstep, f7⟩
      | cont st1 =>
        have hf := loopBody_fields M num thr maxIt N st
        rw [hbody] at hf
        dsimp only [StepRes.state] at hf
        obtain ⟨f1, f2, f3, f4, f5, f6, f7, f8⟩ := hf
        obtain ⟨r1, r2, r3, r4, r5, r6, r7⟩ := ih st1
        have hstep : st.n ≤ st1.n := by
          rcases f3 with h | h
          · exact le_of_eq h.symm
          · rw [h]; exact Nat.le_succ _
        refine ⟨r1.trans f1, r2.trans f2, le_trans f4 r3, le_trans hstep r4, ?_, ?_, ?_⟩
        · intro hstar hn
          exact r5 (f2.trans hstar) (f8 hstar hn)
        · intro hm
          exact r6 (le_trans hm hstep)
        · intro e he
          rcases r7 e he with h | h
          · rcases f7 e h with h2 | h2
            · exact Or.inl h2
            · exact Or.inr h2
          · rw [f1] at h
            exact Or.inr h
    · exact ⟨rfl, rfl, le_refl _, le_refl _, fun _ hn => hn, fun h => h, fun e he => Or.inl he⟩

theorem scan_considered_gt (num : Numerics) (m : ℕ) (epsStar : ℚ) :
    ∀ (l : List Int) (Ip : ℕ) (acc : ScanAcc),
    (∀ p ∈ acc.considered, m < p) →
    ∀ p ∈ (scan num m epsStar l Ip acc).considered, m < p := by
  intro l
  induction l with
  | nil =>
    intro Ip acc hacc
    simpa [scan] using hacc
  | cons v rest ih =>
    intro Ip acc hacc
    simp only [scan]
    split_ifs with h1 h2 h3
    · exact hacc
    · intro p hp
      rcases List.mem_append.mp hp with h | h
      · exact hacc p h
      · rw [List.mem_singleton.mp h]
        exact Nat.lt_of_not_le h1
    · refine ih _ _ ?_
      intro p hp
      rcases List.mem_append.mp hp with h | h
      · exact hacc p h
      · rw [List.mem_singleton.mp h]
        exact Nat.lt_of_not_le h1
    · refine ih _ _ ?_
      intro p hp
      rcases List.mem_append.mp hp with h | h
      · exact hacc p h
      · rw [List.mem_singleton.mp h]
        exact Nat.lt_of_not_le h1

/-! ### Claim theorems -/

/-- Claim C3 (confirmed): for every run whose distance threshold is unset, the
guard at the top of `computeModel` returns failure before any sampling,
coefficient estimation, or inlier selection occurs: the result is `false` and
the call trace into the model is empty. -/
theorem C3_unset_threshold_fails : ∀ (α : Type) (M : Model α) (num : Numerics)
    (maxIt : ℤ) (fuel : ℕ),
    (computeModel M num unsetThreshold maxIt fuel).1 = false ∧
    draws (computeModel M num unsetThreshold maxIt fuel).2.trace = 0 ∧
    estimates (computeModel M num unsetThreshold maxIt fuel).2.trace = 0 ∧
    selects (computeModel M num unsetThreshold maxIt fuel).2.trace = 0 := by
  intro α M num maxIt fuel
  have h : computeModel M num unsetThreshold maxIt fuel = (false, initState M) := by
    simp [computeModel, unsetThreshold]
  rw [h]
  exact ⟨rfl, rfl, rfl, rfl⟩

/-- Claim C10 (confirmed): `computeModel` detects an unset threshold solely by
comparing the stored value with `DBL_MAX`, and `setDistanceThreshold` stores
its argument verbatim; hence a threshold explicitly set to `DBL_MAX` yields a
run identical to the unset-threshold run — failure with no trial executed —
so the engine cannot distinguish the two. -/
theorem C10_dblmax_indistinguishable : ∀ (α : Type) (M : Model α)
    (num : Numerics) (maxIt : ℤ) (fuel : ℕ) (c : SACSegmentationCfg),
    (setDistanceThreshold c DBL_MAX).threshold = DBL_MAX ∧
    computeModel M num (setDistanceThreshold c DBL_MAX).threshold maxIt fuel =
      computeModel M num unsetThreshold maxIt fuel ∧
    (computeModel M num (setDistanceThreshold c DBL_MAX).threshold maxIt fuel).1 = false ∧
    draws (computeModel M num (setDistanceThreshold c DBL_MAX).threshold maxIt fuel).2.trace
      = 0 := by
  intro α M num maxIt fuel c
  refine ⟨rfl, rfl, ?_, ?_⟩
  · have h : computeModel M num (setDistanceThreshold c DBL_MAX).threshold maxIt fuel =
        (false, initState M) := by
      simp [computeModel, setDistanceThreshold]
    rw [h]
  · have h : computeModel M num (setDistanceThreshold c DBL_MAX).threshold maxIt fuel =
        (false, initState M) := by
      simp [computeModel, setDistanceThreshold]
    rw [h]
    rfl

/-- Claim C8 (confirmed): a run whose best selection is still empty at loop
exit returns `false` with an empty inlier set (the `NoModelFound` outcome,
not an exception), and a run with a recorded best — including one that merely
exhausted its iteration budget — returns `true` carrying exactly the loop's
final state, best result included. -/
theorem C8_failure_iff_no_model : ∀ (α : Type) (M : Model α) (num : Numerics)
    (thr : ℚ) (maxIt : ℤ) (fuel : ℕ),
    ((computeModel M num thr maxIt fuel).1 = true ↔
      (computeModel M num thr maxIt fuel).2.model_ ≠ []) ∧
    ((computeModel M num thr maxIt fuel).2.model_ = [] →
      (computeModel M num thr maxIt fuel).1 = false ∧
      (computeModel M num thr maxIt fuel).2.inliers_ = []) ∧
    ((computeModel M num thr maxIt fuel).2.model_ ≠ [] →
      computeModel M num thr maxIt fuel =
        (true, run M num thr maxIt M.indices.length fuel (initState M))) := by
  intro α M num thr maxIt fuel
  simp only [computeModel]
  split_ifs with ht hm
  · refine ⟨by simp [initState], fun _ => ⟨rfl, rfl⟩, fun h => absurd rfl h⟩
  · exact ⟨by simp [hm], fun _ => ⟨rfl, rfl⟩, fun h => absurd hm h⟩
  · exact ⟨by simp [hm], fun h => absurd h hm, fun _ => rfl⟩

/-- Claim C4 (confirmed): whenever a loop step changes `epsilon_n_star` (the
step (f) improvement), the new `k_n_star` equals the recomputation
`knStarUpdate` — `ceil(log 0.05 / log(1 − ε^m))` with the exact-0 branch
giving 1 and the exact-1 branch giving `T_N`, clipped below at `2·m` — and is
therefore at least `2·m`; the boundary rules hold for every `ε`. -/
theorem C4_k_n_star_update : ∀ (α : Type) (M : Model α) (num : Numerics) (thr : ℚ)
    (maxIt : ℤ) (N : ℕ) (st : PState α),
    ((loopBody M num thr maxIt N st).state.epsilon_n_star ≠ st.epsilon_n_star →
      (loopBody M num thr maxIt N st).state.k_n_star =
        knStarUpdate num M.m (loopBody M num thr maxIt N st).state.epsilon_n_star ∧
      2 * M.m ≤ (loopBody M num thr maxIt N st).state.k_n_star) ∧
    (∀ eps : ℚ, 2 * M.m ≤ knStarUpdate num M.m eps) ∧
    (∀ eps : ℚ, 1 - eps ^ M.m = 0 → knStarUpdate num M.m eps = max 1 (2 * M.m)) ∧
    (∀ eps : ℚ, 1 - eps ^ M.m = 1 → knStarUpdate num M.m eps = max 200000 (2 * M.m)) := by
  intro α M num thr maxIt N st
  refine ⟨?_, fun eps => knStarUpdate_ge num M.m eps, ?_, ?_⟩
  · intro h
    have hk := (loopBody_fields M num thr maxIt N st).2.2.2.2.2.1 h
    exact ⟨hk, hk ▸ knStarUpdate_ge num M.m _⟩
  · intro eps h0
    simp [knStarUpdate, h0]
  · intro eps h1
    simp [knStarUpdate, h1]

/-- Claim C5 (confirmed): the pool invariant `m ≤ n ≤ N` (with `n_star`
holding its initial value `N`) holds at loop entry whenever `m ≤ N`, is
preserved by every loop step, `n` changes by at most one per step and never
decreases over a run, and when the growth guard fires the stop
(`n` reaching `N`) the run breaks without pushing a new pool element. -/
theorem C5_pool_invariant : ∀ (α : Type) (M : Model α) (num : Numerics) (thr : ℚ)
    (maxIt : ℤ) (N : ℕ) (st : PState α),
    (M.m ≤ M.indices.length → PoolInv M.m M.indices.length (initState M)) ∧
    (PoolInv M.m N st →
      PoolInv M.m N (loopBody M num thr maxIt N st).state ∧
      ((loopBody M num thr maxIt N st).state.n = st.n ∨
        (loopBody M num thr maxIt N st).state.n = st.n + 1) ∧
      ((growth N M.m st).1 = true →
        (growth N M.m st).2.n = N ∧ (growth N M.m st).2.index_pool = st.index_pool)) ∧
    (∀ fuel : ℕ, PoolInv M.m N st →
      PoolInv M.m N (run M num thr maxIt N fuel st) ∧
      st.n ≤ (run M num thr maxIt N fuel st).n) := by
  intro α M num thr maxIt N st
  refine ⟨?_, ?_, ?_⟩
  · intro hm
    exact ⟨le_refl _, hm, rfl⟩
  · intro h
    obtain ⟨h1, h2, h3⟩ := h
    obtain ⟨f1, f2, f3, f4, f5, f6, f7, f8⟩ := loopBody_fields M num thr maxIt N st
    refine ⟨⟨?_, f8 h3 h2, f2.trans h3⟩, f3, (growth_n_le N M.m st h3 h2).2⟩
    rcases f3 with h | h
    · rw [h]; exact h1
    · rw [h]; exact le_trans h1 (Nat.le_succ _)
  · intro fuel h
    obtain ⟨h1, h2, h3⟩ := h
    obtain ⟨r1, r2, r3, r4, r5, r6, r7⟩ := run_fields M num thr maxIt N fuel st
    exact ⟨⟨r6 h1, r5 h3 h2, r2.trans h3⟩, r4⟩

/-- Claim C6 (confirmed): within one run, the recorded best inlier count is
monotonically non-decreasing across every loop step and across any number of
steps, and the stored best selection / coefficients / inlier set change only
on a step whose inlier count strictly exceeds the best-so-far count. -/
theorem C6_best_monotone : ∀ (α : Type) (M : Model α) (num : Numerics) (thr : ℚ)
    (maxIt : ℤ) (N : ℕ) (st : PState α),
    st.I_N_best ≤ (loopBody M num thr maxIt N st).state.I_N_best ∧
    (((loopBody M num thr maxIt N st).state.model_ ≠ st.model_ ∨
      (loopBody M num thr maxIt N st).state.inliers_ ≠ st.inliers_ ∨
      (loopBody M num thr maxIt N st).state.coeffs_ ≠ st.coeffs_) →
        st.I_N_best < (loopBody M num thr maxIt N st).state.I_N_best) ∧
    (∀ fuel : ℕ, st.I_N_best ≤ (run M num thr maxIt N fuel st).I_N_best) := by
  intro α M num thr maxIt N st
  obtain ⟨f1, f2, f3, f4, f5, f6, f7, f8⟩ := loopBody_fields M num thr maxIt N st
  exact ⟨f4, f5, fun fuel => (run_fields M num thr maxIt N fuel st).2.2.1⟩

/-- Claim C9 (confirmed): the pool/full-set swap performed for sampling is
reversed before `selectWithinDistance` runs: the model's index vector is
unchanged across every loop step and every run, and every inlier-selection
call recorded in a full `computeModel` trace was issued with exactly the
original full index sequence. -/
theorem C9_full_index_selection : ∀ (α : Type) (M : Model α) (num : Numerics)
    (thr : ℚ) (maxIt : ℤ) (N : ℕ) (st : PState α) (fuel : ℕ),
    (run M num thr maxIt N fuel st).mindices = st.mindices ∧
    (loopBody M num thr maxIt N st).state.mindices = st.mindices ∧
    (∀ e ∈ (run M num thr maxIt N fuel st).trace,
      e ∈ st.trace ∨ selRespects st.mindices e) ∧
    (∀ e ∈ (computeModel M num thr maxIt fuel).2.trace, selRespects M.indices e) := by
  intro α M num thr maxIt N st fuel
  refine ⟨(run_fields M num thr maxIt N fuel st).1,
    (loopBody_fields M num thr maxIt N st).1,
    (run_fields M num thr maxIt N fuel st).2.2.2.2.2.2, ?_⟩
  intro e he
  by_cases ht : thr = DBL_MAX
  · rw [show computeModel M num thr maxIt fuel = (false, initState M) by
      simp [computeModel, ht]] at he
    exact absurd he (List.not_mem_nil e)
  · have h : (computeModel M num thr maxIt fuel).2.trace =
        (run M num thr maxIt M.indices.length fuel (initState M)).trace := by
      simp only [computeModel]
      rw [if_neg ht]
      split_ifs <;> rfl
    rw [h] at he
    rcases (run_fields M num thr maxIt M.indices.length fuel
        (initState M)).2.2.2.2.2.2 e he with h2 | h2
    · exact absurd h2 (List.not_mem_nil e)
    · exact h2

/-- Claim C7, amended (corrected): the step (f) backward scan stops at the
first candidate pool size at or below `m` — `possible_n_star <= m`, not the
spec's "below `m`" — and consequently never evaluates any candidate of size
`≤ m` (in particular none smaller than `m`). -/
theorem C7_scan_stop_at_or_below : ∀ (num : Numerics) (m : ℕ) (epsStar : ℚ)
    (v : Int) (rest : List Int) (Ip : ℕ) (acc : ScanAcc),
    ((v + 1).toNat ≤ m → scan num m epsStar (v :: rest) Ip acc = acc) ∧
    (∀ (l : List Int) (pb Ib : ℕ) (eb : ℚ), ∀ p ∈ (scan num m epsStar l Ip
      { possibleBest := pb, IBest := Ib, epsBest := eb, considered := [] }).considered,
      m < p) := by
  intro num m epsStar v rest Ip acc
  constructor
  · intro h
    simp only [scan]
    rw [if_pos h]
  · intro l pb Ib eb
    exact scan_considered_gt num m epsStar l Ip _ (by simp)

/-- Claim C1, amended (corrected): when a trial's sample selection comes back
empty, the engine breaks out of the trial loop at once: the iteration counter
is not advanced, no estimate or inlier selection runs, the best-so-far record
(and the adaptive budget) are untouched, and no subsequent trial executes;
the condition itself is not surfaced as a distinct error — the caller-visible
outcome is decided by the usual final best-model check. -/
theorem C1_empty_selection_breaks : ∀ (α : Type) (M : Model α) (num : Numerics)
    (thr : ℚ) (maxIt : ℤ) (N : ℕ) (st : PState α),
    (growth N M.m st).1 = false →
    trialSelection M (swapIdx (growth N M.m st).2) = [] →
    ∃ st' : PState α, loopBody M num thr maxIt N st = .brk st' ∧
      st'.iterations = st.iterations ∧
      st'.I_N_best = st.I_N_best ∧
      st'.model_ = st.model_ ∧
      st'.inliers_ = st.inliers_ ∧
      st'.k_n_star = st.k_n_star ∧
      draws st'.trace = draws st.trace + 1 ∧
      estimates st'.trace = estimates st.trace ∧
      selects st'.trace = selects st.trace := by
  intro α M num thr maxIt N st hg hsel
  obtain ⟨gm, gi, gns, gI, gmod, ginl, gco, geps, gk, gtr, gn⟩ := growth_fields N M.m st
  refine ⟨{ (growth N M.m st).2 with
      trace := Event.draw (growth N M.m st).2.iterations (growth N M.m st).2.index_pool
        (trialSelection M (swapIdx (growth N M.m st).2)) :: (growth N M.m st).2.trace },
    ?_, gi, gI, gmod, ginl, gk, ?_, ?_, ?_⟩
  · simp only [loopBody]
    rw [hg]
    simp only [Bool.false_eq_true, if_false]
    rw [hsel]
    rfl
  · show draws (Event.draw _ _ _ :: (growth N M.m st).2.trace) = draws st.trace + 1
    rw [gtr]
    simp [draws]
  · show estimates (Event.draw _ _ _ :: (growth N M.m st).2.trace) = estimates st.trace
    rw [gtr]
    simp [estimates]
  · show selects (Event.draw _ _ _ :: (growth N M.m st).2.trace) = selects st.trace
    rw [gtr]
    simp [selects]

/-- Claim C2, amended (corrected): the max-iterations cap is a post-increment
check made only on trials whose coefficient estimation succeeds.  With
`max_iterations = 0`, a trial whose selection is non-empty and whose estimate
succeeds still executes in full (estimate and inlier selection included) and
only then breaks, with the iteration counter at 1; a trial whose estimate
fails advances the counter and continues the loop, bypassing the cap
entirely. -/
theorem C2_max_iterations_postcheck : ∀ (α : Type) (M : Model α) (num : Numerics)
    (thr : ℚ) (N : ℕ) (st : PState α) (sel : List Int),
    (sel ≠ [] → ∀ c : α, M.computeModelCoefficients sel = some c → st.iterations = 0 →
      ∃ st' : PState α, afterSelection M num thr 0 N st sel = .brk st' ∧
        st'.iterations = 1 ∧
        estimates st'.trace = estimates st.trace + 1 ∧
        selects st'.trace = selects st.trace + 1) ∧
    (sel ≠ [] → M.computeModelCoefficients sel = none →
      ∃ st' : PState α, afterSelection M num thr 0 N st sel = .cont st' ∧
        st'.iterations = st.iterations + 1) := by
  intro α M num thr N st sel
  constructor
  · intro hsel c hc hit
    simp only [afterSelection, if_neg hsel]
    rw [hc]
    dsimp only
    split_ifs with hI hb hb
    · refine ⟨_, rfl, ?_, ?_, ?_⟩
      · show (updateBest num M.m N _ sel c _).iterations + 1 = 1
        rw [(updateBest_fields num M.m N _ sel c _).2.1]
        show st.iterations + 1 = 1
        rw [hit]
      · show estimates (updateBest num M.m N _ sel c _).trace = estimates st.trace + 1
        rw [(updateBest_fields num M.m N _ sel c _).2.2.2.2.2.1]
        simp [estimates]
      · show selects (updateBest num M.m N _ sel c _).trace = selects st.trace + 1
        rw [(updateBest_fields num M.m N _ sel c _).2.2.2.2.2.1]
        simp [selects]
    · exact absurd (by exact_mod_cast Nat.succ_pos _) hb
    · refine ⟨_, rfl, ?_, ?_, ?_⟩
      · show st.iterations + 1 = 1
        rw [hit]
      · simp [estimates]
      · simp [selects]
    · exact absurd (by exact_mod_cast Nat.succ_pos _) hb
  · intro hsel hc
    simp only [afterSelection, if_neg hsel]
    rw [hc]
    exact ⟨_, rfl, rfl⟩

/-! ### Concrete counterexamples and witnesses

Batteries marks the `Rat` field operations `@[irreducible]`; concrete runs
are evaluated here, so restore reducibility locally. -/

section ConcreteRuns

attribute [local semireducible] Rat.add Rat.mul Rat.inv Rat.sub

/-- Claim C1, counterexample: with `max_iterations = 5` and a model whose
sample selection always comes back empty, the run performs exactly one draw
and stops — the iteration counter never advances and no subsequent trial
executes, contradicting "skip to the next iteration … subsequent trials still
execute". -/
theorem C1_empty_selection_cx :
    (computeModel M0 num1 (1/100) 5 10).1 = false ∧
    draws (computeModel M0 num1 (1/100) 5 10).2.trace = 1 ∧
    ¬ 2 ≤ draws (computeModel M0 num1 (1/100) 5 10).2.trace ∧
    (computeModel M0 num1 (1/100) 5 10).2.iterations = 0 := by decide

/-- Claim C1, witness for `C1_empty_selection_breaks` at a concrete run. -/
theorem C1_empty_selection_breaks_witness :
    ∃ st' : PState ℕ, loopBody M0 num1 (1/100) 5 4 (initState M0) = .brk st' ∧
      st'.iterations = (initState M0).iterations ∧
      st'.I_N_best = (initState M0).I_N_best ∧
      st'.model_ = (initState M0).model_ ∧
      st'.inliers_ = (initState M0).inliers_ ∧
      st'.k_n_star = (initState M0).k_n_star ∧
      draws st'.trace = draws (initState M0).trace + 1 ∧
      estimates st'.trace = estimates (initState M0).trace ∧
      selects st'.trace = selects (initState M0).trace :=
  C1_empty_selection_breaks ℕ M0 num1 (1/100) 5 4 (initState M0) (by decide) (by decide)

/-- Claim C2, counterexample: with `max_iterations = 0`, the run still draws
twice (the first trial's failed estimate bypasses the cap check entirely),
records a best model, and returns success — contradicting "terminates
immediately with no trials executed and reports NoModelFound". -/
theorem C2_zero_max_iterations_cx :
    (computeModel Mf num1 (1/100) 0 10).1 = true ∧
    (computeModel Mf num1 (1/100) 0 10).2.model_ = [0, 1] ∧
    draws (computeModel Mf num1 (1/100) 0 10).2.trace = 2 ∧
    (computeModel Mf num1 (1/100) 0 10).2.iterations = 2 ∧
    ¬ draws (computeModel Mf num1 (1/100) 0 10).2.trace = 0 ∧
    ¬ (computeModel Mf num1 (1/100) 0 10).1 = false := by decide

/-- Claim C2, witness for `C2_max_iterations_postcheck` at concrete inputs:
a successful first trial under cap 0 breaks with the counter at 1, and a
failed estimate under cap 0 continues the loop. -/
theorem C2_max_iterations_postcheck_witness :
    (∃ st' : PState ℕ, afterSelection Mg num1 (1/100) 0 4 (initState Mg) [0, 1] = .brk st' ∧
      st'.iterations = 1 ∧
      estimates st'.trace = estimates (initState Mg).trace + 1 ∧
      selects st'.trace = selects (initState Mg).trace + 1) ∧
    (∃ st' : PState ℕ, afterSelection Mf num1 (1/100) 0 4 (initState Mf) [0] = .cont st' ∧
      st'.iterations = (initState Mf).iterations + 1) :=
  ⟨(C2_max_iterations_postcheck ℕ Mg num1 (1/100) 4 (initState Mg) [0, 1]).1
      (by decide) 0 (by decide) (by decide),
    (C2_max_iterations_postcheck ℕ Mf num1 (1/100) 4 (initState Mf) [0]).2
      (by decide) (by decide)⟩

/-- Claim C4, witness for `C4_k_n_star_update` at a concrete improving step
(the trial raises `epsilon_n_star` from 0 to 1, so `k_n_star` is recomputed
through the `bottom_log = 0` boundary branch and clipped to `2·m = 4`). -/
theorem C4_k_n_star_update_witness :
    ((loopBody Mg num1 (1/100) 10 4 (initState Mg)).state.k_n_star =
      knStarUpdate num1 Mg.m
        (loopBody Mg num1 (1/100) 10 4 (initState Mg)).state.epsilon_n_star ∧
      2 * Mg.m ≤ (loopBody Mg num1 (1/100) 10 4 (initState Mg)).state.k_n_star) ∧
    knStarUpdate num1 Mg.m 1 = max 1 (2 * Mg.m) :=
  ⟨(C4_k_n_star_update ℕ Mg num1 (1/100) 10 4 (initState Mg)).1 (by decide),
    (C4_k_n_star_update ℕ Mg num1 (1/100) 10 4 (initState Mg)).2.2.1 1 (by decide)⟩

/-- Claim C5, witness for `C5_pool_invariant` on a concrete three-step run. -/
theorem C5_pool_invariant_witness :
    PoolInv Mg.m 4 (run Mg num1 (1/100) 10 4 3 (initState Mg)) ∧
    (initState Mg).n ≤ (run Mg num1 (1/100) 10 4 3 (initState Mg)).n :=
  (C5_pool_invariant ℕ Mg num1 (1/100) 10 4 (initState Mg)).2.2 3
    ⟨by decide, by decide, by decide⟩

/-- Claim C6, witness for `C6_best_monotone`: a concrete step that replaces
the stored best does so with a strictly larger inlier count. -/
theorem C6_best_monotone_witness :
    (initState Mg).I_N_best < (loopBody Mg num1 (1/100) 10 4 (initState Mg)).state.I_N_best :=
  (C6_best_monotone ℕ Mg num1 (1/100) 10 4 (initState Mg)).2.1 (Or.inl (by decide))

/-- Claim C7, counterexample: on sorted inliers `[1, 4]` with `m = 2`, the
code's scan stops at the candidate pool size `2 = m` without evaluating it
(`considered = [5]`), whereas the scan described by the spec's words ("stops
at the first candidate below `m`") would evaluate candidate `2`
(`considered = [5, 2]`); the two scans differ. -/
theorem C7_scan_stop_cx :
    scan num1 2 (1/2) [4, 1] 2
        { possibleBest := 10, IBest := 2, epsBest := 1/5, considered := [] } =
      { possibleBest := 10, IBest := 2, epsBest := 1/5, considered := [5] } ∧
    scanSpecWord num1 2 (1/2) [4, 1] 2
        { possibleBest := 10, IBest := 2, epsBest := 1/5, considered := [] } =
      { possibleBest := 10, IBest := 2, epsBest := 1/5, considered := [5, 2] } ∧
    scan num1 2 (1/2) [4, 1] 2
        { possibleBest := 10, IBest := 2, epsBest := 1/5, considered := [] } ≠
      scanSpecWord num1 2 (1/2) [4, 1] 2
        { possibleBest := 10, IBest := 2, epsBest := 1/5, considered := [] } := by
  decide

/-- Claim C7, witness for `C7_scan_stop_at_or_below` at concrete inputs. -/
theorem C7_scan_stop_at_or_below_witness :
    scan num1 2 0 [1] 3 { possibleBest := 4, IBest := 3, epsBest := 0, considered := [] } =
      { possibleBest := 4, IBest := 3, epsBest := 0, considered := [] } ∧
    2 < 3 :=
  ⟨(C7_scan_stop_at_or_below num1 2 0 1 [] 3
      { possibleBest := 4, IBest := 3, epsBest := 0, considered := [] }).1 (by decide),
    (C7_scan_stop_at_or_below num1 2 0 1 [] 3
      { possibleBest := 4, IBest := 3, epsBest := 0, considered := [] }).2
      [2, 1] 4 3 (3/4) 3 (by decide)⟩

/-- Claim C8, witness for `C8_failure_iff_no_model`: a run with no recorded
best returns failure with cleared inliers, and a run with a recorded best
returns success carrying the loop's final state. -/
theorem C8_failure_iff_no_model_witness :
    ((computeModel M0 num1 (1/100) 5 10).1 = false ∧
      (computeModel M0 num1 (1/100) 5 10).2.inliers_ = []) ∧
    computeModel Mg num1 (1/100) 10 10 =
      (true, run Mg num1 (1/100) 10 Mg.indices.length 10 (initState Mg)) :=
  ⟨(C8_failure_iff_no_model ℕ M0 num1 (1/100) 5 10).2.1 (by decide),
    (C8_failure_iff_no_model ℕ Mg num1 (1/100) 10 10).2.2 (by decide)⟩

/-- Claim C9, witness for `C9_full_index_selection`: a concrete
`selectWithinDistance` call recorded in a full run was issued with the
original index sequence. -/
theorem C9_full_index_selection_witness :
    selRespects Mg.indices (Event.select [0, 1, 2, 3] [0, 1, 2]) :=
  (C9_full_index_selection ℕ Mg num1 (1/100) 10 4 (initState Mg) 10).2.2.2
    (Event.select [0, 1, 2, 3] [0, 1, 2]) (by decide)

end ConcreteRuns

end Prosac
